import Mathlib

/-!
Shallow embedding of the Statme-bot aggregation core
(`bot/services/aggregation.py`, `bot/db/models.py`,
`bot/cogs/stats_collector.py`).

Modelling conventions:

* A UTC timestamp is represented by its calendar date, and a calendar
  date by an integer (its day ordinal).  Every operation of the source
  that touches a timestamp only uses its date (`date_key(ts)` /
  `.date()`), and `(now - timedelta(days=k)).date() = now.date() - k`
  for naive UTC datetimes, so day-ordinal arithmetic is faithful.
* A stored day key (a string field name of `daily_stats`) either is the
  `strftime("%Y-%m-%d")` image of a date — constructor `DayKey.valid d`
  with `d` the date ordinal — or fails to parse under
  `strptime("%Y-%m-%d")` — constructor `DayKey.malformed tag`, where
  `tag` distinguishes different malformed strings.
* Mongo documents are modelled as records with the integer counter
  fields the code reads and writes (a field absent from a raw document
  reads as `0` via `.get(field, 0)`, matching the `0` defaults here);
  `created_at` / `updated_at` bookkeeping timestamps are dropped, no
  claim mentions them.
* A collection is an association list from `_id` to document, looked up
  by `lookupAssoc` and updated by `updateAssoc`.  The users `_id` string
  `f"{guild_id}:{user_id}"` (`user_key`) is represented by the pair
  `(guild_id, user_id)` — its exact injective content, since the two
  integers are printed around a `":"` separator — and the servers `_id`
  string `str(guild_id)` by `guild_id` itself.
* `update_one(filter, update, upsert=True)` with a `$inc` spec is
  `updateAssoc m key d f` where `d` is the document Mongo materialises
  on insert from the filter and `$setOnInsert` (all counters `0`) and
  `f` applies `$inc`/`$set`/`$addToSet` to an existing document;
  `$inc` on an absent field or absent day bucket starts from `0`.
* `_update_user_counter` receives the pair (total field, daily field)
  that the source passes as the strings `total_field` and
  `daily_field = f"daily_stats.{day}.{field}"`; the round trip through
  `_parse_daily_field` (split on `"."`, take parts 1 and 2) is the
  identity on that encoding, so the embedding passes the day key and
  the field selector `RField` directly.
-/

/-- A stored `daily_stats` field name: either the canonical
`YYYY-MM-DD` rendering of a calendar date (identified with its day
ordinal) or a string that `strptime` rejects. -/
inductive DayKey where
  | valid (d : Int) : DayKey
  | malformed (tag : Nat) : DayKey
deriving DecidableEq, Repr

/-- `datetime.strptime(day_key, "%Y-%m-%d")` wrapped in
`try/except ValueError`: succeeds exactly on canonical date keys. -/
def parseDay : DayKey → Option Int
  | .valid d => some d
  | .malformed _ => none

/-- `models.date_key(ts)`: format the timestamp's UTC date. -/
def date_key (ts : Int) : DayKey := .valid ts

/-- Association-list lookup (`find_one` by `_id`). -/
def lookupAssoc {κ α : Type} [DecidableEq κ] : List (κ × α) → κ → Option α
  | [], _ => none
  | (k', v) :: t, k => if k = k' then some v else lookupAssoc t k

/-- `update_one({_id: k}, update, upsert=True)`: rewrite the stored
document through `f`, or insert `f d` (with `d` the document Mongo
materialises from the filter and `$setOnInsert`) when absent. -/
def updateAssoc {κ α : Type} [DecidableEq κ] (l : List (κ × α)) (k : κ) (d : α) (f : α → α) :
    List (κ × α) :=
  match l with
  | [] => [(k, f d)]
  | (k', v) :: t => if k = k' then (k', f v) :: t else (k', v) :: updateAssoc t k d f

/-- One day bucket of a user document
(`daily_stats.<day>.{messages, reactions_given, reactions_received}`). -/
structure DayUserStats where
  messages : Int := 0
  reactions_given : Int := 0
  reactions_received : Int := 0
deriving DecidableEq, Repr

/-- A `users` collection document. -/
structure UserDoc where
  guild_id : Int := 0
  user_id : Int := 0
  total_messages : Int := 0
  reactions_given : Int := 0
  reactions_received : Int := 0
  daily_stats : List (DayKey × DayUserStats) := []
deriving DecidableEq, Repr

/-- One day bucket of a server document
(`daily_stats.<day>.{messages, reactions, active_users}`). -/
structure DayServerStats where
  messages : Int := 0
  reactions : Int := 0
  active_users : List Int := []
deriving DecidableEq, Repr

/-- A `servers` collection document. -/
structure ServerDoc where
  guild_id : Int := 0
  stats_channel_id : Option Int := none
  stats_message_id : Option Int := none
  daily_stats : List (DayKey × DayServerStats) := []
deriving DecidableEq, Repr

/-- The durable state of `AggregationService`: the `users` collection
keyed by `user_key(guild_id, user_id)` and the `servers` collection
keyed by `str(guild_id)`. -/
structure Store where
  users : List ((Int × Int) × UserDoc) := []
  servers : List (Int × ServerDoc) := []
deriving DecidableEq, Repr

/-- Mongo `$addToSet`: append the element unless already present. -/
def addToSet (l : List Int) (x : Int) : List Int :=
  if l.contains x then l else l ++ [x]

/-- Which reaction counter pair `_update_user_counter` is addressing:
`total_field = "reactions_given"`, `daily_field = "daily_stats.<day>.reactions_given"`
or the `reactions_received` pair. -/
inductive RField where
  | given : RField
  | received : RField
deriving DecidableEq, Repr

/-- Read the addressed total counter of a user document. -/
def UserDoc.rtotal (doc : UserDoc) : RField → Int
  | .given => doc.reactions_given
  | .received => doc.reactions_received

/-- Read the addressed field of a day bucket. -/
def DayUserStats.rval (s : DayUserStats) : RField → Int
  | .given => s.reactions_given
  | .received => s.reactions_received

/-- `$inc` the addressed field of a day bucket by `dd`. -/
def DayUserStats.incField (fld : RField) (dd : Int) (s : DayUserStats) : DayUserStats :=
  match fld with
  | .given => { s with reactions_given := s.reactions_given + dd }
  | .received => { s with reactions_received := s.reactions_received + dd }

/-- The update document of `_update_user_counter` applied to a stored
(or freshly materialised) user document: `$inc` the total field by
`dt` and the day-bucket field by `dd`, `$set guild_id, user_id`. -/
def UserDoc.applyReactionInc (fld : RField) (day : DayKey) (dt dd : Int) (g u : Int)
    (doc : UserDoc) : UserDoc :=
  let doc' : UserDoc :=
    match fld with
    | .given => { doc with reactions_given := doc.reactions_given + dt }
    | .received => { doc with reactions_received := doc.reactions_received + dt }
  { doc' with
      guild_id := g
      user_id := u
      daily_stats := updateAssoc doc'.daily_stats day {} (DayUserStats.incField fld dd) }

/-- `AggregationService._update_user_counter`: read the current total
and day value, then either plain upsert-increment (`delta > 0`) or the
guarded decrement that refuses to act on an absent document, is a no-op
when both counters are already `≤ 0`, and otherwise clamps each applied
delta independently so neither counter crosses below zero. -/
def update_user_counter (users : List ((Int × Int) × UserDoc)) (g u : Int)
    (fld : RField) (day : DayKey) (delta : Int) : List ((Int × Int) × UserDoc) :=
  let key := (g, u)
  let existing := lookupAssoc users key
  let daily_value : Int :=
    match existing with
    | some doc => (((lookupAssoc doc.daily_stats day).getD {}).rval fld)
    | none => 0
  if delta > 0 then
    updateAssoc users key {} (UserDoc.applyReactionInc fld day delta delta g u)
  else
    match existing with
    | none => users
    | some doc =>
      let current_total := doc.rtotal fld
      if current_total ≤ 0 ∧ daily_value ≤ 0 then users
      else
        let safe_total_delta := if current_total + delta ≥ 0 then delta else -current_total
        let safe_daily_delta := if daily_value + delta ≥ 0 then delta else -daily_value
        if safe_total_delta = 0 ∧ safe_daily_delta = 0 then users
        else updateAssoc users key {}
          (UserDoc.applyReactionInc fld day safe_total_delta safe_daily_delta g u)

/-- The update document of `_update_server_reactions` applied to a
stored (or freshly materialised) server document: `$inc` the day's
`reactions` by `d`, `$set guild_id`. -/
def ServerDoc.applyReactionsInc (g : Int) (day : DayKey) (d : Int) (doc : ServerDoc) :
    ServerDoc :=
  { doc with
      guild_id := g
      daily_stats := updateAssoc doc.daily_stats day {}
        (fun s => { s with reactions := s.reactions + d }) }

/-- `AggregationService._update_server_reactions`: plain upsert
increment for `delta > 0`; for a decrement, no-op on an absent document
or a day value already `≤ 0`, otherwise a delta clamped at the current
day value. -/
def update_server_reactions (servers : List (Int × ServerDoc)) (g : Int)
    (day : DayKey) (delta : Int) : List (Int × ServerDoc) :=
  if delta > 0 then
    updateAssoc servers g {} (ServerDoc.applyReactionsInc g day delta)
  else
    match lookupAssoc servers g with
    | none => servers
    | some doc =>
      let current := ((lookupAssoc doc.daily_stats day).getD {}).reactions
      if current ≤ 0 then servers
      else
        let safe_delta := if current + delta ≥ 0 then delta else -current
        if safe_delta = 0 then servers
        else updateAssoc servers g {} (ServerDoc.applyReactionsInc g day safe_delta)

/-- The user-side update document of `record_message`: `$inc` the
message total and the day bucket, `$set guild_id, user_id`. -/
def UserDoc.applyMessageInc (g u : Int) (day : DayKey) (doc : UserDoc) : UserDoc :=
  { doc with
      guild_id := g
      user_id := u
      total_messages := doc.total_messages + 1
      daily_stats := updateAssoc doc.daily_stats day {}
        (fun s => { s with messages := s.messages + 1 }) }

/-- The server-side update document of `record_message`: `$inc` the day
bucket's messages, `$addToSet` the author into the day's
`active_users`, `$set guild_id`. -/
def ServerDoc.applyMessageInc (g u : Int) (day : DayKey) (doc : ServerDoc) : ServerDoc :=
  { doc with
      guild_id := g
      daily_stats := updateAssoc doc.daily_stats day {}
        (fun s => { s with
            messages := s.messages + 1
            active_users := addToSet s.active_users u }) }

/-- `AggregationService.record_message`: one `$inc` update on the user
document (total and day bucket) and one on the server document (day
bucket messages plus `$addToSet` of the author into the day's
`active_users`), both upserting. -/
def record_message (st : Store) (g u : Int) (ts : Int) : Store :=
  let day := date_key ts
  { users := updateAssoc st.users (g, u) {} (UserDoc.applyMessageInc g u day)
    servers := updateAssoc st.servers g {} (ServerDoc.applyMessageInc g u day) }

/-- `AggregationService._record_reaction_change`: update the reactor's
`reactions_given`, then (when the author is resolved) the author's
`reactions_received`, then the server's day reactions. -/
def record_reaction_change (st : Store) (g reactor : Int) (author : Option Int)
    (delta : Int) (ts : Int) : Store :=
  let day := date_key ts
  let users1 := update_user_counter st.users g reactor .given day delta
  let users2 :=
    match author with
    | some a => update_user_counter users1 g a .received day delta
    | none => users1
  let servers' := update_server_reactions st.servers g day delta
  { users := users2, servers := servers' }

/-- `AggregationService.record_reaction_add`. -/
def record_reaction_add (st : Store) (g reactor : Int) (author : Option Int) (ts : Int) : Store :=
  record_reaction_change st g reactor author 1 ts

/-- `AggregationService.record_reaction_remove`. -/
def record_reaction_remove (st : Store) (g reactor : Int) (author : Option Int) (ts : Int) : Store :=
  record_reaction_change st g reactor author (-1) ts

/-- `AggregationService._day_within_window`: parse the stored day key,
treat a `ValueError` as out of window, otherwise compare against the
cutoff date. -/
def day_within_window (k : DayKey) (cutoff : Int) : Bool :=
  match parseDay k with
  | none => false
  | some d => cutoff ≤ d

/-- Python `x in set` / `set.add` fused: prepend unless present. -/
def insertUnique (l : List Int) (x : Int) : List Int :=
  if l.contains x then l else x :: l

/-- `set.update(xs)`: fold the elements of `xs` into the set. -/
def unionInto (l : List Int) (xs : List Int) : List Int :=
  xs.foldl insertUnique l

/-- The loop body of `get_server_windows`: accumulate messages,
reactions and the `active_users` set union over in-window buckets. -/
def serverWindowLoop (l : List (DayKey × DayServerStats)) (cutoff : Int)
    (m r : Int) (a : List Int) : Int × Int × List Int :=
  match l with
  | [] => (m, r, a)
  | (k, s) :: t =>
    if day_within_window k cutoff then
      serverWindowLoop t cutoff (m + s.messages) (r + s.reactions) (unionInto a s.active_users)
    else
      serverWindowLoop t cutoff m r a

/-- `AggregationService.get_server_windows`: result triple
`(messages, reactions, active_users count)` for the window of
`max(days, 1)` calendar days ending at `now`'s date. -/
def get_server_windows (st : Store) (g : Int) (days : Int) (now : Int) : Int × Int × Nat :=
  let window_days := max days 1
  let cutoff := now - (window_days - 1)
  match lookupAssoc st.servers g with
  | none => (0, 0, 0)
  | some doc =>
    let res := serverWindowLoop doc.daily_stats cutoff 0 0 []
    (res.1, res.2.1, res.2.2.length)

/-- The inner loop of `get_top_users_by_messages`: sum the in-window
`messages` values of one user document. -/
def userWindowMessages (l : List (DayKey × DayUserStats)) (cutoff : Int) (acc : Int) : Int :=
  match l with
  | [] => acc
  | (k, s) :: t =>
    if day_within_window k cutoff then userWindowMessages t cutoff (acc + s.messages)
    else userWindowMessages t cutoff acc

/-- The scan loop of `get_top_users_by_messages`: walk the `users`
collection, keep `(user_id, total)` for guild members with a positive
in-window total, in collection order. -/
def topUsersLoop (docs : List UserDoc) (g : Int) (cutoff : Int) (acc : List (Int × Int)) :
    List (Int × Int) :=
  match docs with
  | [] => acc
  | doc :: t =>
    if doc.guild_id = g then
      let total := userWindowMessages doc.daily_stats cutoff 0
      if total > 0 then topUsersLoop t g cutoff (acc ++ [(doc.user_id, total)])
      else topUsersLoop t g cutoff acc
    else topUsersLoop t g cutoff acc

/-- `AggregationService.get_top_users_by_messages`: scan, filter out
zero totals, stable-sort descending by count (`list.sort(key=count,
reverse=True)`), truncate to `limit`. -/
def get_top_users_by_messages (st : Store) (g : Int) (days : Int) (limit : Nat) (now : Int) :
    List (Int × Int) :=
  let window_days := max days 1
  let cutoff := now - (window_days - 1)
  let top := topUsersLoop (st.users.map Prod.snd) g cutoff []
  (top.mergeSort (fun a b => decide (b.2 ≤ a.2))).take limit

example : update_user_counter [] 1 2 .given (date_key 0) (-1) = [] := by decide

example :
    get_server_windows
      { servers := [(1, { daily_stats := [(date_key 0, { messages := 3, active_users := [7, 8] }),
                                          (date_key (-1), { messages := 4, active_users := [7] })] })] }
      1 1 0 = (3, 0, 2) := by decide

example :
    get_server_windows
      { servers := [(1, { daily_stats := [(date_key 0, { messages := 3, active_users := [7, 8] }),
                                          (date_key (-1), { messages := 4, active_users := [7] })] })] }
      1 2 0 = (7, 0, 2) := by decide

/-- `MessageAuthorCache`: an `OrderedDict` from message id to author
id, head = least recently used, bounded by `max_size`. -/
structure MessageAuthorCache where
  max_size : Nat := 5000
  data : List (Int × Int) := []
deriving DecidableEq, Repr

/-- Remove the (unique) entry with the given key, `OrderedDict`
deletion as part of a move-to-end. -/
def removeKey (l : List (Int × Int)) (k : Int) : List (Int × Int) :=
  match l with
  | [] => []
  | (k', v) :: t => if k' = k then t else (k', v) :: removeKey t k

/-- `MessageAuthorCache.put`: move an existing entry to the most-recent
end (re-assigning its value), insert a new one at the end, and evict
the least-recently-used entry when over capacity. -/
def MessageAuthorCache.put (c : MessageAuthorCache) (mid aid : Int) : MessageAuthorCache :=
  let d := if (c.data.map Prod.fst).contains mid then removeKey c.data mid else c.data
  let d := d ++ [(mid, aid)]
  let d := if d.length > c.max_size then d.tail else d
  { c with data := d }

/-- `collections.Counter[u] += 1`. -/
def counterInc (l : List (Int × Int)) (u : Int) : List (Int × Int) :=
  updateAssoc l u (0 : Int) (· + 1)

/-- The fields of a `discord.Message` that `StatsCollector.on_message`
reads: guild (absent for DMs), author id, the author's bot flag, the
message id, and `created_at` (as a date ordinal). -/
structure MsgEvent where
  guild : Option Int
  author_id : Int
  author_bot : Bool
  message_id : Int
  ts : Int
deriving DecidableEq, Repr

/-- The mutable state `StatsCollector.on_message` can reach: the
durable store behind `AggregationService`, the recency cache, and the
in-process `user_counts` tally. -/
structure CollectorState where
  store : Store := {}
  cache : MessageAuthorCache := {}
  user_counts : List (Int × Int) := []
deriving DecidableEq, Repr

/-- `if self.config.guild_id and message.guild.id != self.config.guild_id`:
skip iff a guild id is configured (`Optional[int]`, `0` is falsy) and
the event's guild differs. -/
def guildFilterSkips (cfg : Option Int) (gid : Int) : Bool :=
  match cfg with
  | some c => c ≠ 0 && gid ≠ c
  | none => false

/-- `StatsCollector.on_message`: drop bot-authored and guildless
messages and messages from a non-configured guild; otherwise record the
message in the store, remember the author in the recency cache, and
bump the in-process `user_counts` tally (used for the
`user_counts.log` line). -/
def on_message (cfg : Option Int) (cs : CollectorState) (m : MsgEvent) : CollectorState :=
  match m.guild with
  | none => cs
  | some gid =>
    if m.author_bot then cs
    else if guildFilterSkips cfg gid then cs
    else
      { store := record_message cs.store gid m.author_id m.ts
        cache := cs.cache.put m.message_id m.author_id
        user_counts := counterInc cs.user_counts m.author_id }

/-- Readout of a user's stored reaction total (`0` when no document or
field is stored, matching `.get(field, 0)`). -/
def userTotal (st : Store) (g u : Int) (fld : RField) : Int :=
  match lookupAssoc st.users (g, u) with
  | some doc => doc.rtotal fld
  | none => 0

/-- Readout of a user's stored day-bucket reaction value. -/
def userDaily (st : Store) (g u : Int) (fld : RField) (day : DayKey) : Int :=
  match lookupAssoc st.users (g, u) with
  | some doc => ((lookupAssoc doc.daily_stats day).getD {}).rval fld
  | none => 0

/-- Readout of a user's stored `total_messages`. -/
def userTotalMessages (st : Store) (g u : Int) : Int :=
  match lookupAssoc st.users (g, u) with
  | some doc => doc.total_messages
  | none => 0

/-- Readout of a user's stored day-bucket `messages` value. -/
def userDailyMessages (st : Store) (g u : Int) (day : DayKey) : Int :=
  match lookupAssoc st.users (g, u) with
  | some doc => ((lookupAssoc doc.daily_stats day).getD {}).messages
  | none => 0

/-- The sum of `daily_stats[*].messages` over a user's stored day
buckets. -/
def sumDailyMessages (st : Store) (g u : Int) : Int :=
  match lookupAssoc st.users (g, u) with
  | some doc => (doc.daily_stats.map (fun p => p.2.messages)).sum
  | none => 0

/-- Readout of a server's stored day-bucket `reactions` value. -/
def serverDailyReactions (st : Store) (g : Int) (day : DayKey) : Int :=
  match lookupAssoc st.servers g with
  | some doc => ((lookupAssoc doc.daily_stats day).getD {}).reactions
  | none => 0

/-- All counters of a user document are non-negative. -/
def UserDocNonneg (doc : UserDoc) : Prop :=
  0 ≤ doc.total_messages ∧ 0 ≤ doc.reactions_given ∧ 0 ≤ doc.reactions_received ∧
    ∀ p ∈ doc.daily_stats,
      0 ≤ p.2.messages ∧ 0 ≤ p.2.reactions_given ∧ 0 ≤ p.2.reactions_received

/-- All counters of a server document are non-negative. -/
def ServerDocNonneg (doc : ServerDoc) : Prop :=
  ∀ p ∈ doc.daily_stats, 0 ≤ p.2.messages ∧ 0 ≤ p.2.reactions

/-- Every counter stored anywhere in the two collections is
non-negative. -/
def StoreNonneg (st : Store) : Prop :=
  (∀ p ∈ st.users, UserDocNonneg p.2) ∧ ∀ p ∈ st.servers, ServerDocNonneg p.2

instance (doc : UserDoc) : Decidable (UserDocNonneg doc) := by
  unfold UserDocNonneg; exact inferInstance

instance (doc : ServerDoc) : Decidable (ServerDocNonneg doc) := by
  unfold ServerDocNonneg; exact inferInstance

instance (st : Store) : Decidable (StoreNonneg st) := by
  unfold StoreNonneg; exact inferInstance

/-! ### Association-list lemmas -/

theorem lookup_updateAssoc_self {κ α : Type} [DecidableEq κ] (l : List (κ × α)) (k : κ)
    (d : α) (f : α → α) :
    lookupAssoc (updateAssoc l k d f) k = some (f ((lookupAssoc l k).getD d)) := by
  induction l with
  | nil => simp [updateAssoc, lookupAssoc]
  | cons p t ih =>
    obtain ⟨k', v⟩ := p
    by_cases h : k = k'
    · subst h
      simp [updateAssoc, lookupAssoc]
    · simp [updateAssoc, lookupAssoc, h, Ne.symm h, ih]

theorem lookup_updateAssoc_ne {κ α : Type} [DecidableEq κ] (l : List (κ × α)) {k k' : κ}
    (d : α) (f : α → α) (h : k ≠ k') :
    lookupAssoc (updateAssoc l k' d f) k = lookupAssoc l k := by
  induction l with
  | nil => simp [updateAssoc, lookupAssoc, h]
  | cons p t ih =>
    obtain ⟨k'', v⟩ := p
    by_cases h2 : k' = k''
    · subst h2
      simp [updateAssoc, lookupAssoc, h]
    · by_cases h3 : k = k'' <;> simp [updateAssoc, lookupAssoc, h2, h3, ih]

theorem snd_mem_updateAssoc {κ α : Type} [DecidableEq κ] {l : List (κ × α)} {k : κ}
    {d : α} {f : α → α} {p : κ × α} (hp : p ∈ updateAssoc l k d f) :
    p ∈ l ∨ p.2 = f ((lookupAssoc l k).getD d) := by
  induction l with
  | nil =>
    simp [updateAssoc] at hp
    simp [hp, lookupAssoc]
  | cons q t ih =>
    obtain ⟨k', v⟩ := q
    by_cases h : k = k'
    · subst h
      simp [updateAssoc] at hp
      rcases hp with hp | hp
      · right; simp [hp, lookupAssoc]
      · left; simp [hp]
    · simp [updateAssoc, h] at hp
      rcases hp with hp | hp
      · left; simp [hp]
      · rcases ih hp with h2 | h2
        · left; simp [h2]
        · right; simpa [lookupAssoc, h] using h2

theorem lookupAssoc_mem {κ α : Type} [DecidableEq κ] {l : List (κ × α)} {k : κ} {v : α}
    (h : lookupAssoc l k = some v) : (k, v) ∈ l := by
  induction l with
  | nil => simp [lookupAssoc] at h
  | cons q t ih =>
    obtain ⟨k', v'⟩ := q
    by_cases h2 : k = k'
    · subst h2
      simp [lookupAssoc] at h
      simp [h]
    · simp [lookupAssoc, h2] at h
      exact List.mem_cons_of_mem _ (ih h)

/-! ### `record_message` counter effects -/

theorem userTotalMessages_record_message (st : Store) (g u ts : Int) :
    userTotalMessages (record_message st g u ts) g u = userTotalMessages st g u + 1 := by
  simp only [userTotalMessages, record_message, lookup_updateAssoc_self]
  cases h : lookupAssoc st.users (g, u) <;> simp [UserDoc.applyMessageInc, h]

theorem userDailyMessages_record_message (st : Store) (g u ts : Int) :
    userDailyMessages (record_message st g u ts) g u (date_key ts)
      = userDailyMessages st g u (date_key ts) + 1 := by
  simp only [userDailyMessages, record_message, lookup_updateAssoc_self]
  cases h : lookupAssoc st.users (g, u) with
  | none => simp [UserDoc.applyMessageInc, h, updateAssoc, lookupAssoc]
  | some doc =>
    simp [h, UserDoc.applyMessageInc, lookup_updateAssoc_self]

theorem sum_messages_updateAssoc (l : List (DayKey × DayUserStats)) (day : DayKey) :
    ((updateAssoc l day {} (fun s => { s with messages := s.messages + 1 })).map
        (fun p => p.2.messages)).sum
      = (l.map (fun p => p.2.messages)).sum + 1 := by
  induction l with
  | nil => simp [updateAssoc]
  | cons p t ih =>
    obtain ⟨k, v⟩ := p
    by_cases h : day = k
    · subst h
      rw [updateAssoc, if_pos rfl]
      simp only [List.map_cons, List.sum_cons]
      ring
    · rw [updateAssoc, if_neg h]
      simp only [List.map_cons, List.sum_cons, ih]
      ring

theorem sumDailyMessages_record_message (st : Store) (g u ts : Int) :
    sumDailyMessages (record_message st g u ts) g u = sumDailyMessages st g u + 1 := by
  simp only [sumDailyMessages, record_message, lookup_updateAssoc_self]
  cases h : lookupAssoc st.users (g, u) <;>
    simp [UserDoc.applyMessageInc, h, sum_messages_updateAssoc, updateAssoc]

theorem userTotalMessages_fold (l : List Int) (g u : Int) (st : Store) :
    userTotalMessages (l.foldl (fun s t => record_message s g u t) st) g u
      = userTotalMessages st g u + (l.length : Int) := by
  induction l generalizing st with
  | nil => simp
  | cons ts t ih =>
    simp only [List.foldl_cons, ih, userTotalMessages_record_message, List.length_cons]
    push_cast
    ring

theorem sumDailyMessages_fold (l : List Int) (g u : Int) (st : Store) :
    sumDailyMessages (l.foldl (fun s t => record_message s g u t) st) g u
      = sumDailyMessages st g u + (l.length : Int) := by
  induction l generalizing st with
  | nil => simp
  | cons ts t ih =>
    simp only [List.foldl_cons, ih, sumDailyMessages_record_message, List.length_cons]
    push_cast
    ring

/-- Claim C3: from no stored document, any sequence of `n`
`record_message` calls for a fixed (guild, user) leaves
`total_messages = n` and `sum(daily_stats[*].messages) = n`; each
single call increments the total and the `date_key(ts)` day bucket
together, in its one update of the user document. -/
theorem C3_message_counts (l : List Int) (g u : Int) :
    (userTotalMessages (l.foldl (fun s t => record_message s g u t) {}) g u = (l.length : Int)
      ∧ sumDailyMessages (l.foldl (fun s t => record_message s g u t) {}) g u = (l.length : Int))
    ∧ ∀ (st : Store) (ts : Int),
        userTotalMessages (record_message st g u ts) g u = userTotalMessages st g u + 1
          ∧ userDailyMessages (record_message st g u ts) g u (date_key ts)
              = userDailyMessages st g u (date_key ts) + 1 := by
  refine ⟨⟨?_, ?_⟩, fun st ts => ⟨userTotalMessages_record_message st g u ts,
    userDailyMessages_record_message st g u ts⟩⟩
  · rw [userTotalMessages_fold]
    simp [userTotalMessages, lookupAssoc]
  · rw [sumDailyMessages_fold]
    simp [sumDailyMessages, lookupAssoc]

/-! ### Guarded decrement characterisation -/

theorem rtotal_applyReactionInc (fld : RField) (day : DayKey) (dt dd g u : Int)
    (doc : UserDoc) :
    (UserDoc.applyReactionInc fld day dt dd g u doc).rtotal fld = doc.rtotal fld + dt := by
  cases fld <;> simp [UserDoc.applyReactionInc, UserDoc.rtotal]

theorem rval_incField (fld : RField) (dd : Int) (s : DayUserStats) :
    (DayUserStats.incField fld dd s).rval fld = s.rval fld + dd := by
  cases fld <;> simp [DayUserStats.incField, DayUserStats.rval]

theorem daily_applyReactionInc (fld : RField) (day : DayKey) (dt dd g u : Int)
    (doc : UserDoc) :
    ((lookupAssoc (UserDoc.applyReactionInc fld day dt dd g u doc).daily_stats day).getD
        {}).rval fld
      = ((lookupAssoc doc.daily_stats day).getD {}).rval fld + dd := by
  cases fld <;>
    simp [UserDoc.applyReactionInc, lookup_updateAssoc_self, DayUserStats.incField,
      DayUserStats.rval]

theorem clamp_eq_max (t : Int) :
    (if t + (-1) ≥ 0 then (-1 : Int) else -t) = max (-1) (-t) := by
  by_cases h : t + (-1) ≥ 0
  · rw [if_pos h, max_eq_left (by omega : -t ≤ -1)]
  · rw [if_neg h, max_eq_right (by omega : (-1 : Int) ≤ -t)]

theorem clamp_nonneg (t : Int) : 0 ≤ t + max (-1) (-t) := by
  rcases le_total (-1 : Int) (-t) with h | h
  · rw [max_eq_right h]; omega
  · rw [max_eq_left h]; omega

theorem max_clamp_eq_zero_iff (t : Int) : max (-1) (-t) = 0 ↔ t = 0 := by
  rcases le_total (-1 : Int) (-t) with h | h
  · rw [max_eq_right h]; omega
  · rw [max_eq_left h]; omega

theorem uuc_decrement_noop (users : List ((Int × Int) × UserDoc)) (g u : Int)
    (fld : RField) (day : DayKey) (doc : UserDoc)
    (hu : lookupAssoc users (g, u) = some doc)
    (h : doc.rtotal fld ≤ 0 ∧ ((lookupAssoc doc.daily_stats day).getD {}).rval fld ≤ 0) :
    update_user_counter users g u fld day (-1) = users := by
  simp only [update_user_counter, hu]
  rw [if_neg (by norm_num : ¬((-1 : Int) > 0))]
  rw [if_pos h]

theorem uuc_decrement_apply (users : List ((Int × Int) × UserDoc)) (g u : Int)
    (fld : RField) (day : DayKey) (doc : UserDoc)
    (hu : lookupAssoc users (g, u) = some doc)
    (h : ¬(doc.rtotal fld ≤ 0 ∧ ((lookupAssoc doc.daily_stats day).getD {}).rval fld ≤ 0)) :
    update_user_counter users g u fld day (-1)
      = updateAssoc users (g, u) {}
          (UserDoc.applyReactionInc fld day (max (-1) (-(doc.rtotal fld)))
            (max (-1) (-(((lookupAssoc doc.daily_stats day).getD {}).rval fld))) g u) := by
  simp only [update_user_counter, hu]
  rw [if_neg (by norm_num : ¬((-1 : Int) > 0))]
  rw [if_neg h]
  rw [clamp_eq_max, clamp_eq_max]
  rw [if_neg]
  intro hc
  have h1 := (max_clamp_eq_zero_iff _).mp hc.1
  have h2 := (max_clamp_eq_zero_iff _).mp hc.2
  exact h ⟨by omega, by omega⟩

theorem reactions_applyReactionsInc (g : Int) (day : DayKey) (d : Int) (sdoc : ServerDoc) :
    ((lookupAssoc (ServerDoc.applyReactionsInc g day d sdoc).daily_stats day).getD
        {}).reactions
      = ((lookupAssoc sdoc.daily_stats day).getD {}).reactions + d := by
  simp [ServerDoc.applyReactionsInc, lookup_updateAssoc_self]

theorem usr_decrement_noop (servers : List (Int × ServerDoc)) (g : Int) (day : DayKey)
    (sdoc : ServerDoc) (hs : lookupAssoc servers g = some sdoc)
    (h : ((lookupAssoc sdoc.daily_stats day).getD {}).reactions ≤ 0) :
    update_server_reactions servers g day (-1) = servers := by
  simp only [update_server_reactions, hs]
  rw [if_neg (by norm_num : ¬((-1 : Int) > 0))]
  rw [if_pos h]

theorem usr_decrement_apply (servers : List (Int × ServerDoc)) (g : Int) (day : DayKey)
    (sdoc : ServerDoc) (hs : lookupAssoc servers g = some sdoc)
    (h : 0 < ((lookupAssoc sdoc.daily_stats day).getD {}).reactions) :
    update_server_reactions servers g day (-1)
      = updateAssoc servers g {}
          (ServerDoc.applyReactionsInc g day
            (max (-1) (-(((lookupAssoc sdoc.daily_stats day).getD {}).reactions)))) := by
  simp only [update_server_reactions, hs]
  rw [if_neg (by norm_num : ¬((-1 : Int) > 0))]
  rw [if_neg (by omega : ¬(((lookupAssoc sdoc.daily_stats day).getD {}).reactions ≤ 0))]
  rw [clamp_eq_max]
  rw [if_neg]
  intro hc
  have := (max_clamp_eq_zero_iff _).mp hc
  omega

/-- Claim C1: for a reaction retraction (`delta = -1`,
`record_reaction_remove`) on a stored user document, if the stored
total and the `date_key(ts)` day value are both `≤ 0` the update is a
no-op; otherwise the total receives `max(-1, -currentTotal)` and the
day bucket `max(-1, -currentDayValue)`, clamped independently, and
neither ends below zero.  The same guarded rule governs the server
document's daily reactions counter. -/
theorem C1_guarded_retraction (st : Store) (g u : Int) (fld : RField) (day : DayKey)
    (doc : UserDoc) (sdoc : ServerDoc)
    (hu : lookupAssoc st.users (g, u) = some doc)
    (hs : lookupAssoc st.servers g = some sdoc) :
    (userTotal st g u fld ≤ 0 ∧ userDaily st g u fld day ≤ 0 →
        update_user_counter st.users g u fld day (-1) = st.users)
    ∧ (¬(userTotal st g u fld ≤ 0 ∧ userDaily st g u fld day ≤ 0) →
        userTotal { st with users := update_user_counter st.users g u fld day (-1) } g u fld
            = userTotal st g u fld + max (-1) (-(userTotal st g u fld))
          ∧ userDaily { st with users := update_user_counter st.users g u fld day (-1) }
                g u fld day
              = userDaily st g u fld day + max (-1) (-(userDaily st g u fld day))
          ∧ 0 ≤ userTotal { st with users := update_user_counter st.users g u fld day (-1) }
                g u fld
          ∧ 0 ≤ userDaily { st with users := update_user_counter st.users g u fld day (-1) }
                g u fld day)
    ∧ (serverDailyReactions st g day ≤ 0 →
        update_server_reactions st.servers g day (-1) = st.servers)
    ∧ (0 < serverDailyReactions st g day →
        serverDailyReactions
              { st with servers := update_server_reactions st.servers g day (-1) } g day
            = serverDailyReactions st g day + max (-1) (-(serverDailyReactions st g day))
          ∧ 0 ≤ serverDailyReactions
              { st with servers := update_server_reactions st.servers g day (-1) } g day) := by
  have ht : userTotal st g u fld = doc.rtotal fld := by simp [userTotal, hu]
  have hd : userDaily st g u fld day
      = ((lookupAssoc doc.daily_stats day).getD {}).rval fld := by simp [userDaily, hu]
  have hsr : serverDailyReactions st g day
      = ((lookupAssoc sdoc.daily_stats day).getD {}).reactions := by
    simp [serverDailyReactions, hs]
  refine ⟨?_, ?_, ?_, ?_⟩
  · intro h
    rw [ht, hd] at h
    exact uuc_decrement_noop st.users g u fld day doc hu h
  · intro h
    rw [ht, hd] at h
    rw [uuc_decrement_apply st.users g u fld day doc hu h]
    refine ⟨?_, ?_, ?_, ?_⟩ <;>
      simp [userTotal, userDaily, hu, lookup_updateAssoc_self,
        rtotal_applyReactionInc, daily_applyReactionInc, clamp_nonneg]
  · intro h
    rw [hsr] at h
    exact usr_decrement_noop st.servers g day sdoc hs h
  · intro h
    rw [hsr] at h
    rw [usr_decrement_apply st.servers g day sdoc hs h]
    constructor <;>
      simp [serverDailyReactions, hs, lookup_updateAssoc_self,
        reactions_applyReactionsInc, clamp_nonneg]

/-! ### Collection-level readouts and effect lemmas -/

/-- The stored reaction total read directly off the `users` collection
(`0` when the document or field is absent). -/
def uTot (users : List ((Int × Int) × UserDoc)) (g u : Int) (fld : RField) : Int :=
  ((lookupAssoc users (g, u)).getD {}).rtotal fld

/-- The stored day-bucket reaction value read directly off the `users`
collection. -/
def uDaily (users : List ((Int × Int) × UserDoc)) (g u : Int) (fld : RField)
    (day : DayKey) : Int :=
  ((lookupAssoc (((lookupAssoc users (g, u)).getD {}).daily_stats) day).getD {}).rval fld

/-- The stored day-bucket reactions value read directly off the
`servers` collection. -/
def sDaily (servers : List (Int × ServerDoc)) (g : Int) (day : DayKey) : Int :=
  ((lookupAssoc (((lookupAssoc servers g).getD {}).daily_stats) day).getD {}).reactions

theorem rtotal_default (fld : RField) : (({} : UserDoc)).rtotal fld = 0 := by
  cases fld <;> rfl

theorem rval_default (fld : RField) : (({} : DayUserStats)).rval fld = 0 := by
  cases fld <;> rfl

theorem userTotal_eq_uTot (st : Store) (g u : Int) (fld : RField) :
    userTotal st g u fld = uTot st.users g u fld := by
  unfold userTotal uTot
  cases h : lookupAssoc st.users (g, u) <;> simp [h, rtotal_default]

theorem userDaily_eq_uDaily (st : Store) (g u : Int) (fld : RField) (day : DayKey) :
    userDaily st g u fld day = uDaily st.users g u fld day := by
  unfold userDaily uDaily
  cases h : lookupAssoc st.users (g, u) <;> simp [h, lookupAssoc, rval_default]

theorem serverDailyReactions_eq_sDaily (st : Store) (g : Int) (day : DayKey) :
    serverDailyReactions st g day = sDaily st.servers g day := by
  unfold serverDailyReactions sDaily
  cases h : lookupAssoc st.servers g <;> simp [h, lookupAssoc]

theorem uuc_decrement_absent (users : List ((Int × Int) × UserDoc)) (g u : Int)
    (fld : RField) (day : DayKey)
    (hu : lookupAssoc users (g, u) = none) :
    update_user_counter users g u fld day (-1) = users := by
  simp only [update_user_counter, hu]
  rw [if_neg (by norm_num : ¬((-1 : Int) > 0))]

theorem usr_decrement_absent (servers : List (Int × ServerDoc)) (g : Int) (day : DayKey)
    (hs : lookupAssoc servers g = none) :
    update_server_reactions servers g day (-1) = servers := by
  simp only [update_server_reactions, hs]
  rw [if_neg (by norm_num : ¬((-1 : Int) > 0))]

theorem uuc_add_eq (users : List ((Int × Int) × UserDoc)) (g u : Int)
    (fld : RField) (day : DayKey) :
    update_user_counter users g u fld day 1
      = updateAssoc users (g, u) {} (UserDoc.applyReactionInc fld day 1 1 g u) := by
  simp only [update_user_counter]
  rw [if_pos (by norm_num : (1 : Int) > 0)]

theorem usr_add_eq (servers : List (Int × ServerDoc)) (g : Int) (day : DayKey) :
    update_server_reactions servers g day 1
      = updateAssoc servers g {} (ServerDoc.applyReactionsInc g day 1) := by
  simp only [update_server_reactions]
  rw [if_pos (by norm_num : (1 : Int) > 0)]

theorem uTot_add (users : List ((Int × Int) × UserDoc)) (g u : Int) (fld : RField)
    (day : DayKey) :
    uTot (update_user_counter users g u fld day 1) g u fld = uTot users g u fld + 1 := by
  rw [uuc_add_eq]
  unfold uTot
  rw [lookup_updateAssoc_self]
  simp [rtotal_applyReactionInc]

theorem uDaily_add (users : List ((Int × Int) × UserDoc)) (g u : Int) (fld : RField)
    (day : DayKey) :
    uDaily (update_user_counter users g u fld day 1) g u fld day
      = uDaily users g u fld day + 1 := by
  rw [uuc_add_eq]
  unfold uDaily
  rw [lookup_updateAssoc_self]
  simp [daily_applyReactionInc]

theorem sDaily_add (servers : List (Int × ServerDoc)) (g : Int) (day : DayKey) :
    sDaily (update_server_reactions servers g day 1) g day = sDaily servers g day + 1 := by
  rw [usr_add_eq]
  unfold sDaily
  rw [lookup_updateAssoc_self]
  simp [reactions_applyReactionsInc]

theorem uuc_shape (users : List ((Int × Int) × UserDoc)) (g u : Int) (fld : RField)
    (day : DayKey) (δ : Int) :
    update_user_counter users g u fld day δ = users
    ∨ ∃ dt dd, update_user_counter users g u fld day δ
        = updateAssoc users (g, u) {} (UserDoc.applyReactionInc fld day dt dd g u) := by
  cases hl : lookupAssoc users (g, u) with
  | none =>
    simp only [update_user_counter, hl]
    split_ifs <;> first | exact Or.inl rfl | exact Or.inr ⟨_, _, rfl⟩
  | some doc =>
    simp only [update_user_counter, hl]
    split_ifs <;> first | exact Or.inl rfl | exact Or.inr ⟨_, _, rfl⟩

theorem usr_shape (servers : List (Int × ServerDoc)) (g : Int) (day : DayKey) (δ : Int) :
    update_server_reactions servers g day δ = servers
    ∨ ∃ d, update_server_reactions servers g day δ
        = updateAssoc servers g {} (ServerDoc.applyReactionsInc g day d) := by
  cases hl : lookupAssoc servers g with
  | none =>
    simp only [update_server_reactions, hl]
    split_ifs <;> first | exact Or.inl rfl | exact Or.inr ⟨_, rfl⟩
  | some doc =>
    simp only [update_server_reactions, hl]
    split_ifs <;> first | exact Or.inl rfl | exact Or.inr ⟨_, rfl⟩

theorem lookup_uuc_ne (users : List ((Int × Int) × UserDoc)) (g u : Int) (fld : RField)
    (day : DayKey) (δ : Int) {k : Int × Int} (hk : k ≠ (g, u)) :
    lookupAssoc (update_user_counter users g u fld day δ) k = lookupAssoc users k := by
  rcases uuc_shape users g u fld day δ with h | ⟨dt, dd, h⟩
  · rw [h]
  · rw [h, lookup_updateAssoc_ne _ _ _ hk]

theorem lookup_usr_ne (servers : List (Int × ServerDoc)) (g : Int) (day : DayKey)
    (δ : Int) {k : Int} (hk : k ≠ g) :
    lookupAssoc (update_server_reactions servers g day δ) k = lookupAssoc servers k := by
  rcases usr_shape servers g day δ with h | ⟨d, h⟩
  · rw [h]
  · rw [h, lookup_updateAssoc_ne _ _ _ hk]

theorem rtotal_applyReactionInc_other {fld fld' : RField} (hf : fld' ≠ fld)
    (day : DayKey) (dt dd g u : Int) (doc : UserDoc) :
    (UserDoc.applyReactionInc fld day dt dd g u doc).rtotal fld' = doc.rtotal fld' := by
  cases fld <;> cases fld' <;>
    simp_all [UserDoc.applyReactionInc, UserDoc.rtotal]

theorem daily_applyReactionInc_other {fld fld' : RField} (hf : fld' ≠ fld)
    (day day' : DayKey) (dt dd g u : Int) (doc : UserDoc) :
    ((lookupAssoc (UserDoc.applyReactionInc fld day dt dd g u doc).daily_stats day').getD
        {}).rval fld'
      = ((lookupAssoc doc.daily_stats day').getD {}).rval fld' := by
  by_cases hd : day' = day
  · subst hd
    cases fld <;> cases fld' <;>
      simp_all [UserDoc.applyReactionInc, lookup_updateAssoc_self, DayUserStats.incField,
        DayUserStats.rval]
  · cases fld <;>
      simp [UserDoc.applyReactionInc, lookup_updateAssoc_ne _ _ _ hd]

theorem uTot_uuc_other (users : List ((Int × Int) × UserDoc)) (g2 u2 : Int) (fld : RField)
    (day : DayKey) (δ : Int) (g' u' : Int) {fld' : RField} (hf : fld' ≠ fld) :
    uTot (update_user_counter users g2 u2 fld day δ) g' u' fld' = uTot users g' u' fld' := by
  rcases uuc_shape users g2 u2 fld day δ with h | ⟨dt, dd, h⟩
  · rw [h]
  · rw [h]
    by_cases hk : (g', u') = (g2, u2)
    · unfold uTot
      rw [hk, lookup_updateAssoc_self]
      simp [rtotal_applyReactionInc_other hf]
    · unfold uTot
      rw [lookup_updateAssoc_ne _ _ _ hk]

theorem uDaily_uuc_other (users : List ((Int × Int) × UserDoc)) (g2 u2 : Int) (fld : RField)
    (day : DayKey) (δ : Int) (g' u' : Int) {fld' : RField} (day' : DayKey)
    (hf : fld' ≠ fld) :
    uDaily (update_user_counter users g2 u2 fld day δ) g' u' fld' day'
      = uDaily users g' u' fld' day' := by
  rcases uuc_shape users g2 u2 fld day δ with h | ⟨dt, dd, h⟩
  · rw [h]
  · rw [h]
    by_cases hk : (g', u') = (g2, u2)
    · unfold uDaily
      rw [hk, lookup_updateAssoc_self]
      simp [daily_applyReactionInc_other hf]
    · unfold uDaily
      rw [lookup_updateAssoc_ne _ _ _ hk]

theorem uTot_uDaily_remove (users : List ((Int × Int) × UserDoc)) (g u : Int)
    (fld : RField) (day : DayKey)
    (ht : 1 ≤ uTot users g u fld) (hd : 1 ≤ uDaily users g u fld day) :
    uTot (update_user_counter users g u fld day (-1)) g u fld = uTot users g u fld - 1
    ∧ uDaily (update_user_counter users g u fld day (-1)) g u fld day
        = uDaily users g u fld day - 1 := by
  cases hl : lookupAssoc users (g, u) with
  | none =>
    exfalso
    unfold uTot at ht
    rw [hl] at ht
    simp [rtotal_default] at ht
  | some doc =>
    have htd : uTot users g u fld = doc.rtotal fld := by
      unfold uTot; rw [hl]; rfl
    have hdd : uDaily users g u fld day
        = ((lookupAssoc doc.daily_stats day).getD {}).rval fld := by
      unfold uDaily; rw [hl]; rfl
    rw [htd] at ht
    rw [hdd] at hd
    have hnn : ¬(doc.rtotal fld ≤ 0
        ∧ ((lookupAssoc doc.daily_stats day).getD {}).rval fld ≤ 0) := by
      intro hc
      omega
    rw [uuc_decrement_apply users g u fld day doc hl hnn]
    rw [max_eq_left (by omega : -(doc.rtotal fld) ≤ (-1 : Int)),
      max_eq_left (by omega :
        -(((lookupAssoc doc.daily_stats day).getD {}).rval fld) ≤ (-1 : Int))]
    constructor
    · unfold uTot
      rw [lookup_updateAssoc_self, hl]
      simp [rtotal_applyReactionInc, htd]
      omega
    · unfold uDaily
      rw [lookup_updateAssoc_self, hl]
      simp [daily_applyReactionInc, hdd]
      omega

theorem sDaily_remove (servers : List (Int × ServerDoc)) (g : Int) (day : DayKey)
    (h : 1 ≤ sDaily servers g day) :
    sDaily (update_server_reactions servers g day (-1)) g day = sDaily servers g day - 1 := by
  cases hl : lookupAssoc servers g with
  | none =>
    exfalso
    unfold sDaily at h
    rw [hl] at h
    simp [lookupAssoc] at h
  | some doc =>
    have hc : sDaily servers g day = ((lookupAssoc doc.daily_stats day).getD {}).reactions := by
      unfold sDaily; rw [hl]; rfl
    rw [hc] at h
    rw [usr_decrement_apply servers g day doc hl (by omega)]
    rw [max_eq_left (by omega :
      -(((lookupAssoc doc.daily_stats day).getD {}).reactions) ≤ (-1 : Int))]
    unfold sDaily
    rw [lookup_updateAssoc_self, hl]
    simp [reactions_applyReactionsInc, hc]
    omega

/-- Claim C10: a reaction decrement (`delta = -1`) targeting a
(guild, user) pair with no stored user document leaves the users
collection entirely unchanged — the decrement path never upserts — and
a server-side reaction decrement for a guild with no stored server
document leaves the servers collection unchanged. -/
theorem C10_decrement_never_creates (users : List ((Int × Int) × UserDoc))
    (servers : List (Int × ServerDoc)) (g u : Int) (fld : RField) (day : DayKey)
    (hu : lookupAssoc users (g, u) = none) (hs : lookupAssoc servers g = none) :
    update_user_counter users g u fld day (-1) = users
    ∧ update_server_reactions servers g day (-1) = servers :=
  ⟨uuc_decrement_absent users g u fld day hu, usr_decrement_absent servers g day hs⟩

/-- Witness for C10 at empty collections. -/
theorem C10_decrement_never_creates_witness :
    update_user_counter [] 5 7 .given (date_key 3) (-1) = ([] : List ((Int × Int) × UserDoc))
    ∧ update_server_reactions [] 5 (date_key 3) (-1) = ([] : List (Int × ServerDoc)) :=
  C10_decrement_never_creates [] [] 5 7 .given (date_key 3) rfl rfl

/-- Claim C8: `adjustReaction(+1)` followed immediately by
`adjustReaction(-1)` for the same guild, reactor, author resolution and
calendar day returns the reactor's, author's and server's reaction
counters (totals and day buckets) exactly to their pre-add values,
for any store whose affected counters start non-negative. -/
theorem C8_add_then_remove_roundtrip (st : Store) (g r : Int) (author : Option Int)
    (ts : Int)
    (h1 : 0 ≤ userTotal st g r .given) (h2 : 0 ≤ userDaily st g r .given (date_key ts))
    (h3 : ∀ a, author = some a → 0 ≤ userTotal st g a .received
        ∧ 0 ≤ userDaily st g a .received (date_key ts))
    (h4 : 0 ≤ serverDailyReactions st g (date_key ts)) :
    userTotal (record_reaction_remove (record_reaction_add st g r author ts) g r author ts)
        g r .given = userTotal st g r .given
    ∧ userDaily (record_reaction_remove (record_reaction_add st g r author ts) g r author ts)
        g r .given (date_key ts) = userDaily st g r .given (date_key ts)
    ∧ (∀ a, author = some a →
        userTotal (record_reaction_remove (record_reaction_add st g r author ts)
            g r author ts) g a .received = userTotal st g a .received
        ∧ userDaily (record_reaction_remove (record_reaction_add st g r author ts)
            g r author ts) g a .received (date_key ts)
          = userDaily st g a .received (date_key ts))
    ∧ serverDailyReactions
        (record_reaction_remove (record_reaction_add st g r author ts) g r author ts)
        g (date_key ts) = serverDailyReactions st g (date_key ts) := by
  have hgr : RField.given ≠ RField.received := by decide
  have hrg : RField.received ≠ RField.given := by decide
  simp only [userTotal_eq_uTot, userDaily_eq_uDaily, serverDailyReactions_eq_sDaily] at h1 h2 h4
  cases author with
  | none =>
    simp only [record_reaction_add, record_reaction_remove, record_reaction_change]
    simp only [userTotal_eq_uTot, userDaily_eq_uDaily, serverDailyReactions_eq_sDaily]
    have f1 := uTot_add st.users g r .given (date_key ts)
    have d1 := uDaily_add st.users g r .given (date_key ts)
    obtain ⟨f2, d2⟩ := uTot_uDaily_remove
      (update_user_counter st.users g r .given (date_key ts) 1) g r .given (date_key ts)
      (by omega) (by omega)
    have s1 := sDaily_add st.servers g (date_key ts)
    have s2 := sDaily_remove (update_server_reactions st.servers g (date_key ts) 1) g
      (date_key ts) (by omega)
    refine ⟨by omega, by omega, ?_, by omega⟩
    intro a ha
    exact absurd ha (by simp)
  | some a =>
    have h3' := h3 a rfl
    simp only [userTotal_eq_uTot, userDaily_eq_uDaily] at h3'
    simp only [record_reaction_add, record_reaction_remove, record_reaction_change]
    simp only [userTotal_eq_uTot, userDaily_eq_uDaily, serverDailyReactions_eq_sDaily]
    have f1 := uTot_add st.users g r .given (date_key ts)
    have d1 := uDaily_add st.users g r .given (date_key ts)
    have f2 := uTot_uuc_other
      (update_user_counter st.users g r .given (date_key ts) 1) g a .received (date_key ts) 1
      g r hgr
    have d2 := uDaily_uuc_other
      (update_user_counter st.users g r .given (date_key ts) 1) g a .received (date_key ts) 1
      g r (date_key ts) hgr
    obtain ⟨f3, d3⟩ := uTot_uDaily_remove
      (update_user_counter (update_user_counter st.users g r .given (date_key ts) 1)
        g a .received (date_key ts) 1) g r .given (date_key ts)
      (by omega) (by omega)
    have f4 := uTot_uuc_other
      (update_user_counter (update_user_counter
        (update_user_counter st.users g r .given (date_key ts) 1)
        g a .received (date_key ts) 1) g r .given (date_key ts) (-1))
      g a .received (date_key ts) (-1) g r hgr
    have d4 := uDaily_uuc_other
      (update_user_counter (update_user_counter
        (update_user_counter st.users g r .given (date_key ts) 1)
        g a .received (date_key ts) 1) g r .given (date_key ts) (-1))
      g a .received (date_key ts) (-1) g r (date_key ts) hgr
    have a1 := uTot_uuc_other st.users g r .given (date_key ts) 1 g a hrg
    have b1 := uDaily_uuc_other st.users g r .given (date_key ts) 1 g a (date_key ts) hrg
    have a2 := uTot_add (update_user_counter st.users g r .given (date_key ts) 1)
      g a .received (date_key ts)
    have b2 := uDaily_add (update_user_counter st.users g r .given (date_key ts) 1)
      g a .received (date_key ts)
    have a3 := uTot_uuc_other
      (update_user_counter (update_user_counter st.users g r .given (date_key ts) 1)
        g a .received (date_key ts) 1) g r .given (date_key ts) (-1) g a hrg
    have b3 := uDaily_uuc_other
      (update_user_counter (update_user_counter st.users g r .given (date_key ts) 1)
        g a .received (date_key ts) 1) g r .given (date_key ts) (-1) g a (date_key ts) hrg
    obtain ⟨a4, b4⟩ := uTot_uDaily_remove
      (update_user_counter (update_user_counter (update_user_counter st.users
        g r .given (date_key ts) 1) g a .received (date_key ts) 1)
        g r .given (date_key ts) (-1))
      g a .received (date_key ts) (by omega) (by omega)
    have s1 := sDaily_add st.servers g (date_key ts)
    have s2 := sDaily_remove (update_server_reactions st.servers g (date_key ts) 1) g
      (date_key ts) (by omega)
    refine ⟨by omega, by omega, ?_, by omega⟩
    intro a' ha'
    obtain rfl : a = a' := Option.some.inj ha'
    exact ⟨by omega, by omega⟩

/-! ### Non-negativity preservation -/

theorem rtotal_nonneg {doc : UserDoc} (h : UserDocNonneg doc) (fld : RField) :
    0 ≤ doc.rtotal fld := by
  cases fld
  · exact h.2.1
  · exact h.2.2.1

theorem userDocNonneg_getD (users : List ((Int × Int) × UserDoc)) (g u : Int)
    (h : ∀ p ∈ users, UserDocNonneg p.2) :
    UserDocNonneg ((lookupAssoc users (g, u)).getD {}) := by
  cases hl : lookupAssoc users (g, u) with
  | none => simpa using (by decide : UserDocNonneg {})
  | some doc => simpa using h ((g, u), doc) (lookupAssoc_mem hl)

theorem dayUserStats_nonneg_getD (l : List (DayKey × DayUserStats)) (day : DayKey)
    (h : ∀ p ∈ l, 0 ≤ p.2.messages ∧ 0 ≤ p.2.reactions_given ∧ 0 ≤ p.2.reactions_received) :
    0 ≤ ((lookupAssoc l day).getD {}).messages
    ∧ 0 ≤ ((lookupAssoc l day).getD {}).reactions_given
    ∧ 0 ≤ ((lookupAssoc l day).getD {}).reactions_received := by
  cases hl : lookupAssoc l day with
  | none => simp
  | some v => simpa using h (day, v) (lookupAssoc_mem hl)

theorem rval_nonneg_getD (l : List (DayKey × DayUserStats)) (day : DayKey) (fld : RField)
    (h : ∀ p ∈ l, 0 ≤ p.2.messages ∧ 0 ≤ p.2.reactions_given ∧ 0 ≤ p.2.reactions_received) :
    0 ≤ ((lookupAssoc l day).getD {}).rval fld := by
  obtain ⟨h1, h2, h3⟩ := dayUserStats_nonneg_getD l day h
  cases fld
  · exact h2
  · exact h3

theorem userDocNonneg_applyMessageInc (g u : Int) (day : DayKey) (doc : UserDoc)
    (h : UserDocNonneg doc) : UserDocNonneg (UserDoc.applyMessageInc g u day doc) := by
  obtain ⟨h1, h2, h3, h4⟩ := h
  refine ⟨?_, ?_, ?_, ?_⟩
  · simp only [UserDoc.applyMessageInc]
    omega
  · simpa [UserDoc.applyMessageInc] using h2
  · simpa [UserDoc.applyMessageInc] using h3
  · intro p hp
    simp only [UserDoc.applyMessageInc] at hp
    rcases snd_mem_updateAssoc hp with hm | hm
    · exact h4 p hm
    · obtain ⟨hb1, hb2, hb3⟩ := dayUserStats_nonneg_getD doc.daily_stats day h4
      rw [hm]
      refine ⟨by simp; omega, by simpa using hb2, by simpa using hb3⟩

theorem userDocNonneg_applyReactionInc (fld : RField) (day : DayKey) (dt dd g u : Int)
    (doc : UserDoc) (h : UserDocNonneg doc)
    (hdt : 0 ≤ doc.rtotal fld + dt)
    (hdd : 0 ≤ ((lookupAssoc doc.daily_stats day).getD {}).rval fld + dd) :
    UserDocNonneg (UserDoc.applyReactionInc fld day dt dd g u doc) := by
  obtain ⟨h1, h2, h3, h4⟩ := h
  obtain ⟨hb1, hb2, hb3⟩ := dayUserStats_nonneg_getD doc.daily_stats day h4
  cases fld with
  | given =>
    simp only [UserDoc.rtotal] at hdt
    simp only [DayUserStats.rval] at hdd
    refine ⟨by simpa [UserDoc.applyReactionInc] using h1, ?_,
      by simpa [UserDoc.applyReactionInc] using h3, ?_⟩
    · simp only [UserDoc.applyReactionInc]
      omega
    · intro p hp
      simp only [UserDoc.applyReactionInc] at hp
      rcases snd_mem_updateAssoc hp with hm | hm
      · exact h4 p hm
      · rw [hm]
        simp only [DayUserStats.incField]
        exact ⟨hb1, by omega, hb3⟩
  | received =>
    simp only [UserDoc.rtotal] at hdt
    simp only [DayUserStats.rval] at hdd
    refine ⟨by simpa [UserDoc.applyReactionInc] using h1,
      by simpa [UserDoc.applyReactionInc] using h2, ?_, ?_⟩
    · simp only [UserDoc.applyReactionInc]
      omega
    · intro p hp
      simp only [UserDoc.applyReactionInc] at hp
      rcases snd_mem_updateAssoc hp with hm | hm
      · exact h4 p hm
      · rw [hm]
        simp only [DayUserStats.incField]
        exact ⟨hb1, hb2, by omega⟩

theorem serverDocNonneg_getD (servers : List (Int × ServerDoc)) (g : Int)
    (h : ∀ p ∈ servers, ServerDocNonneg p.2) :
    ServerDocNonneg ((lookupAssoc servers g).getD {}) := by
  cases hl : lookupAssoc servers g with
  | none => simpa using (by decide : ServerDocNonneg {})
  | some doc => simpa using h (g, doc) (lookupAssoc_mem hl)

theorem dayServerStats_nonneg_getD (l : List (DayKey × DayServerStats)) (day : DayKey)
    (h : ∀ p ∈ l, 0 ≤ p.2.messages ∧ 0 ≤ p.2.reactions) :
    0 ≤ ((lookupAssoc l day).getD {}).messages
    ∧ 0 ≤ ((lookupAssoc l day).getD {}).reactions := by
  cases hl : lookupAssoc l day with
  | none => simp
  | some v => simpa using h (day, v) (lookupAssoc_mem hl)

theorem serverDocNonneg_applyMessageInc (g u : Int) (day : DayKey) (sdoc : ServerDoc)
    (h : ServerDocNonneg sdoc) : ServerDocNonneg (ServerDoc.applyMessageInc g u day sdoc) := by
  intro p hp
  simp only [ServerDoc.applyMessageInc] at hp
  rcases snd_mem_updateAssoc hp with hm | hm
  · exact h p hm
  · obtain ⟨hb1, hb2⟩ := dayServerStats_nonneg_getD sdoc.daily_stats day h
    rw [hm]
    exact ⟨by simp; omega, by simpa using hb2⟩

theorem serverDocNonneg_applyReactionsInc (g : Int) (day : DayKey) (d : Int)
    (sdoc : ServerDoc) (h : ServerDocNonneg sdoc)
    (hd : 0 ≤ ((lookupAssoc sdoc.daily_stats day).getD {}).reactions + d) :
    ServerDocNonneg (ServerDoc.applyReactionsInc g day d sdoc) := by
  intro p hp
  simp only [ServerDoc.applyReactionsInc] at hp
  rcases snd_mem_updateAssoc hp with hm | hm
  · exact h p hm
  · obtain ⟨hb1, hb2⟩ := dayServerStats_nonneg_getD sdoc.daily_stats day h
    rw [hm]
    exact ⟨by simpa using hb1, by simp; omega⟩

theorem usersNonneg_uuc (users : List ((Int × Int) × UserDoc)) (g u : Int) (fld : RField)
    (day : DayKey) (δ : Int) (hδ : δ = 1 ∨ δ = -1)
    (h : ∀ p ∈ users, UserDocNonneg p.2) :
    ∀ p ∈ update_user_counter users g u fld day δ, UserDocNonneg p.2 := by
  rcases hδ with rfl | rfl
  · rw [uuc_add_eq]
    intro p hp
    rcases snd_mem_updateAssoc hp with hm | hm
    · exact h p hm
    · rw [hm]
      have hg := userDocNonneg_getD users g u h
      refine userDocNonneg_applyReactionInc fld day 1 1 g u _ hg ?_ ?_
      · have := rtotal_nonneg hg fld
        omega
      · have := rval_nonneg_getD ((lookupAssoc users (g, u)).getD {}).daily_stats day fld
          hg.2.2.2
        omega
  · cases hl : lookupAssoc users (g, u) with
    | none =>
      rw [uuc_decrement_absent users g u fld day hl]
      exact h
    | some doc =>
      by_cases hc : doc.rtotal fld ≤ 0
          ∧ ((lookupAssoc doc.daily_stats day).getD {}).rval fld ≤ 0
      · rw [uuc_decrement_noop users g u fld day doc hl hc]
        exact h
      · rw [uuc_decrement_apply users g u fld day doc hl hc]
        intro p hp
        rcases snd_mem_updateAssoc hp with hm | hm
        · exact h p hm
        · rw [hm, show (lookupAssoc users (g, u)).getD {} = doc from by rw [hl]; rfl]
          exact userDocNonneg_applyReactionInc fld day _ _ g u doc
            (h ((g, u), doc) (lookupAssoc_mem hl)) (clamp_nonneg _) (clamp_nonneg _)

theorem serversNonneg_usr (servers : List (Int × ServerDoc)) (g : Int) (day : DayKey)
    (δ : Int) (hδ : δ = 1 ∨ δ = -1)
    (h : ∀ p ∈ servers, ServerDocNonneg p.2) :
    ∀ p ∈ update_server_reactions servers g day δ, ServerDocNonneg p.2 := by
  rcases hδ with rfl | rfl
  · rw [usr_add_eq]
    intro p hp
    rcases snd_mem_updateAssoc hp with hm | hm
    · exact h p hm
    · rw [hm]
      have hg := serverDocNonneg_getD servers g h
      refine serverDocNonneg_applyReactionsInc g day 1 _ hg ?_
      have := dayServerStats_nonneg_getD ((lookupAssoc servers g).getD {}).daily_stats day hg
      omega
  · cases hl : lookupAssoc servers g with
    | none =>
      rw [usr_decrement_absent servers g day hl]
      exact h
    | some doc =>
      by_cases hc : ((lookupAssoc doc.daily_stats day).getD {}).reactions ≤ 0
      · rw [usr_decrement_noop servers g day doc hl hc]
        exact h
      · rw [usr_decrement_apply servers g day doc hl (by omega)]
        intro p hp
        rcases snd_mem_updateAssoc hp with hm | hm
        · exact h p hm
        · rw [hm, show (lookupAssoc servers g).getD {} = doc from by rw [hl]; rfl]
          exact serverDocNonneg_applyReactionsInc g day _ doc
            (h (g, doc) (lookupAssoc_mem hl)) (clamp_nonneg _)

theorem storeNonneg_record_message (st : Store) (g u ts : Int) (h : StoreNonneg st) :
    StoreNonneg (record_message st g u ts) := by
  obtain ⟨hU, hS⟩ := h
  constructor
  · intro p hp
    simp only [record_message] at hp
    rcases snd_mem_updateAssoc hp with hm | hm
    · exact hU p hm
    · rw [hm]
      exact userDocNonneg_applyMessageInc g u (date_key ts) _ (userDocNonneg_getD st.users g u hU)
  · intro p hp
    simp only [record_message] at hp
    rcases snd_mem_updateAssoc hp with hm | hm
    · exact hS p hm
    · rw [hm]
      exact serverDocNonneg_applyMessageInc g u (date_key ts) _ (serverDocNonneg_getD st.servers g hS)

theorem storeNonneg_record_reaction_change (st : Store) (g r : Int) (author : Option Int)
    (δ : Int) (ts : Int) (hδ : δ = 1 ∨ δ = -1) (h : StoreNonneg st) :
    StoreNonneg (record_reaction_change st g r author δ ts) := by
  obtain ⟨hU, hS⟩ := h
  constructor
  · intro p hp
    simp only [record_reaction_change] at hp
    cases author with
    | none =>
      simp only at hp
      exact usersNonneg_uuc st.users g r .given (date_key ts) δ hδ hU p hp
    | some a =>
      simp only at hp
      exact usersNonneg_uuc _ g a .received (date_key ts) δ hδ
        (usersNonneg_uuc st.users g r .given (date_key ts) δ hδ hU) p hp
  · intro p hp
    simp only [record_reaction_change] at hp
    exact serversNonneg_usr st.servers g (date_key ts) δ hδ hS p hp

/-- Claim C2: starting from a store whose counters are all non-negative,
each Counter Store operation (`record_message`, `record_reaction_add`,
`record_reaction_remove`) leaves every counter non-negative; in
particular a retraction applied when the reactor's current total and
current day bucket are both 0 leaves them at 0, never -1, even for a
remove event with no matching prior add. -/
theorem C2_counters_stay_nonneg (st : Store) (g u r : Int) (author : Option Int) (ts : Int)
    (h : StoreNonneg st) :
    StoreNonneg (record_message st g u ts)
    ∧ StoreNonneg (record_reaction_add st g r author ts)
    ∧ StoreNonneg (record_reaction_remove st g r author ts)
    ∧ (userTotal st g r .given = 0 ∧ userDaily st g r .given (date_key ts) = 0 →
        userTotal (record_reaction_remove st g r author ts) g r .given = 0
        ∧ userDaily (record_reaction_remove st g r author ts) g r .given (date_key ts) = 0) := by
  refine ⟨storeNonneg_record_message st g u ts h,
    storeNonneg_record_reaction_change st g r author 1 ts (Or.inl rfl) h,
    storeNonneg_record_reaction_change st g r author (-1) ts (Or.inr rfl) h, ?_⟩
  intro hz
  obtain ⟨h0t, h0d⟩ := hz
  rw [userTotal_eq_uTot] at h0t
  rw [userDaily_eq_uDaily] at h0d
  have husers1 : update_user_counter st.users g r .given (date_key ts) (-1) = st.users := by
    cases hl : lookupAssoc st.users (g, r) with
    | none => exact uuc_decrement_absent _ _ _ _ _ hl
    | some doc =>
      refine uuc_decrement_noop _ _ _ _ _ doc hl ?_
      have e1 : uTot st.users g r .given = doc.rtotal .given := by
        unfold uTot; rw [hl]; rfl
      have e2 : uDaily st.users g r .given (date_key ts)
          = ((lookupAssoc doc.daily_stats (date_key ts)).getD {}).rval .given := by
        unfold uDaily; rw [hl]; rfl
      constructor <;> omega
  cases author with
  | none =>
    simp only [record_reaction_remove, record_reaction_change, userTotal_eq_uTot,
      userDaily_eq_uDaily]
    rw [husers1]
    exact ⟨h0t, h0d⟩
  | some a =>
    simp only [record_reaction_remove, record_reaction_change, userTotal_eq_uTot,
      userDaily_eq_uDaily]
    rw [husers1]
    constructor
    · rw [uTot_uuc_other st.users g a .received (date_key ts) (-1) g r (by decide)]
      exact h0t
    · rw [uDaily_uuc_other st.users g a .received (date_key ts) (-1) g r (date_key ts)
        (by decide)]
      exact h0d

/-- Witness for C2 at the empty store. -/
theorem C2_counters_stay_nonneg_witness :
    StoreNonneg (record_message ({} : Store) 1 2 0)
    ∧ StoreNonneg (record_reaction_remove ({} : Store) 1 3 (some 4) 0) :=
  have h := C2_counters_stay_nonneg {} 1 2 3 (some 4) 0 (by decide)
  ⟨h.1, h.2.2.1⟩

/-- A sample user document with positive reaction counters. -/
def sampleUserDoc : UserDoc :=
  { guild_id := 1, user_id := 2, reactions_given := 2,
    daily_stats := [(date_key 0, { reactions_given := 1 })] }

/-- A sample server document with a positive day reactions counter. -/
def sampleServerDoc : ServerDoc :=
  { guild_id := 1, daily_stats := [(date_key 0, { reactions := 3 })] }

/-- A sample store holding the two sample documents. -/
def sampleStore : Store :=
  { users := [((1, 2), sampleUserDoc)], servers := [(1, sampleServerDoc)] }

/-- Witness for C1 at a store with positive counters. -/
theorem C1_guarded_retraction_witness :
    userTotal { sampleStore with
        users := update_user_counter sampleStore.users 1 2 .given (date_key 0) (-1) }
        1 2 .given
      = userTotal sampleStore 1 2 .given + max (-1) (-(userTotal sampleStore 1 2 .given))
    ∧ 0 ≤ userTotal { sampleStore with
        users := update_user_counter sampleStore.users 1 2 .given (date_key 0) (-1) }
        1 2 .given :=
  have h := (C1_guarded_retraction sampleStore 1 2 .given (date_key 0) sampleUserDoc
    sampleServerDoc (by decide) (by decide)).2.1 (by decide)
  ⟨h.1, h.2.2.1⟩

/-- Witness for C8 at the empty store with a resolved author. -/
theorem C8_add_then_remove_roundtrip_witness :
    userTotal (record_reaction_remove (record_reaction_add {} 1 2 (some 3) 0) 1 2 (some 3) 0)
        1 2 .given = userTotal ({} : Store) 1 2 .given
    ∧ serverDailyReactions
        (record_reaction_remove (record_reaction_add {} 1 2 (some 3) 0) 1 2 (some 3) 0)
        1 (date_key 0)
      = serverDailyReactions ({} : Store) 1 (date_key 0) :=
  have h := C8_add_then_remove_roundtrip {} 1 2 (some 3) 0 (by decide) (by decide)
    (fun a ha => by obtain rfl := Option.some.inj ha; exact ⟨by decide, by decide⟩)
    (by decide)
  ⟨h.1, h.2.2.2⟩

/-! ### Windowed aggregation lemmas -/

/-- Fold of one reaction-set union over a list of day buckets, the
accumulated shape of the `active_users` set in `get_server_windows`. -/
def unionActive (a : List Int) (l : List (DayKey × DayServerStats)) : List Int :=
  l.foldl (fun acc p => unionInto acc p.2.active_users) a

/-- The set union of `active_users` over a list of day buckets. -/
def activeFinset (l : List (DayKey × DayServerStats)) : Finset Int :=
  l.foldr (fun p acc => p.2.active_users.toFinset ∪ acc) ∅

theorem toFinset_insertUnique (l : List Int) (x : Int) :
    (insertUnique l x).toFinset = insert x l.toFinset := by
  unfold insertUnique
  by_cases h : l.contains x
  · rw [if_pos h]
    have : x ∈ l := by simpa using h
    simp [Finset.insert_eq_self.mpr (List.mem_toFinset.mpr this)]
  · rw [if_neg h]
    simp

theorem nodup_insertUnique (l : List Int) (x : Int) (h : l.Nodup) :
    (insertUnique l x).Nodup := by
  unfold insertUnique
  by_cases hc : l.contains x
  · rwa [if_pos hc]
  · rw [if_neg hc]
    exact List.Nodup.cons (by simpa using hc) h

theorem toFinset_unionInto (a xs : List Int) :
    (unionInto a xs).toFinset = a.toFinset ∪ xs.toFinset := by
  induction xs generalizing a with
  | nil => simp [unionInto]
  | cons x xs ih =>
    show (unionInto (insertUnique a x) xs).toFinset = _
    rw [ih, toFinset_insertUnique]
    simp [Finset.insert_union, Finset.union_insert]

theorem nodup_unionInto (a xs : List Int) (h : a.Nodup) : (unionInto a xs).Nodup := by
  induction xs generalizing a with
  | nil => exact h
  | cons x xs ih => exact ih _ (nodup_insertUnique a x h)

theorem toFinset_unionActive (a : List Int) (l : List (DayKey × DayServerStats)) :
    (unionActive a l).toFinset = a.toFinset ∪ activeFinset l := by
  induction l generalizing a with
  | nil => simp [unionActive, activeFinset]
  | cons p t ih =>
    show (unionActive (unionInto a p.2.active_users) t).toFinset = _
    rw [ih, toFinset_unionInto]
    simp [activeFinset, Finset.union_assoc]

theorem nodup_unionActive (a : List Int) (l : List (DayKey × DayServerStats))
    (h : a.Nodup) : (unionActive a l).Nodup := by
  induction l generalizing a with
  | nil => exact h
  | cons p t ih => exact ih _ (nodup_unionInto a p.2.active_users h)

theorem serverWindowLoop_spec (l : List (DayKey × DayServerStats)) (cutoff : Int)
    (m r : Int) (a : List Int) :
    serverWindowLoop l cutoff m r a
      = (m + ((l.filter (fun p => day_within_window p.1 cutoff)).map
            (fun p => p.2.messages)).sum,
         r + ((l.filter (fun p => day_within_window p.1 cutoff)).map
            (fun p => p.2.reactions)).sum,
         unionActive a (l.filter (fun p => day_within_window p.1 cutoff))) := by
  induction l generalizing m r a with
  | nil => simp [serverWindowLoop, unionActive]
  | cons p t ih =>
    obtain ⟨k, s⟩ := p
    by_cases h : day_within_window k cutoff
    · rw [show serverWindowLoop ((k, s) :: t) cutoff m r a
          = serverWindowLoop t cutoff (m + s.messages) (r + s.reactions)
              (unionInto a s.active_users) from by rw [serverWindowLoop, if_pos h]]
      rw [ih]
      have hf : List.filter (fun p => day_within_window p.1 cutoff) ((k, s) :: t)
          = (k, s) :: List.filter (fun p => day_within_window p.1 cutoff) t := by
        simp [List.filter_cons, h]
      rw [hf]
      simp only [List.map_cons, List.sum_cons, Prod.mk.injEq]
      refine ⟨by ring, by ring, rfl⟩
    · rw [show serverWindowLoop ((k, s) :: t) cutoff m r a = serverWindowLoop t cutoff m r a
          from by rw [serverWindowLoop, if_neg h]]
      have hf : List.filter (fun p => day_within_window p.1 cutoff) ((k, s) :: t)
          = List.filter (fun p => day_within_window p.1 cutoff) t := by
        simp [List.filter_cons, h]
      rw [ih, hf]

/-- Claim C6: the `active_users` component of `get_server_windows` is
the cardinality of the set union of `daily_stats[d].active_users` over
the in-window day keys: a user active on several in-window days counts
exactly once. -/
theorem C6_active_users_union (st : Store) (g days now : Int) :
    (get_server_windows st g days now).2.2
      = (activeFinset (((lookupAssoc st.servers g).getD {}).daily_stats.filter
          (fun p => day_within_window p.1 (now - (max days 1 - 1))))).card := by
  cases hl : lookupAssoc st.servers g with
  | none => simp [get_server_windows, hl, activeFinset]
  | some doc =>
    simp only [get_server_windows, hl, Option.getD_some]
    rw [serverWindowLoop_spec]
    have hn : (unionActive [] (doc.daily_stats.filter
        (fun p => day_within_window p.1 (now - (max days 1 - 1))))).Nodup :=
      nodup_unionActive _ _ List.nodup_nil
    rw [← List.toFinset_card_of_nodup hn, toFinset_unionActive]
    simp

/-- A server document with the malformed day keys of `daily_stats`
dropped. -/
def ServerDoc.dropMalformed (doc : ServerDoc) : ServerDoc :=
  { doc with daily_stats := doc.daily_stats.filter (fun p => (parseDay p.1).isSome) }

/-- The store with every server document's malformed day keys
dropped. -/
def Store.dropMalformed (st : Store) : Store :=
  { st with servers := st.servers.map (fun p => (p.1, p.2.dropMalformed)) }

theorem lookup_map_snd {κ α β : Type} [DecidableEq κ] (l : List (κ × α)) (f : α → β)
    (k : κ) :
    lookupAssoc (l.map (fun p => (p.1, f p.2))) k = (lookupAssoc l k).map f := by
  induction l with
  | nil => simp [lookupAssoc]
  | cons p t ih =>
    obtain ⟨k', v⟩ := p
    by_cases h : k = k' <;> simp [lookupAssoc, h, ih]

theorem filter_dw_dropMalformed (l : List (DayKey × DayServerStats)) (cutoff : Int) :
    (l.filter (fun p => (parseDay p.1).isSome)).filter
        (fun p => day_within_window p.1 cutoff)
      = l.filter (fun p => day_within_window p.1 cutoff) := by
  rw [List.filter_filter]
  refine List.filter_congr ?_
  intro a _
  cases h : a.1 <;> simp [day_within_window, parseDay, h]

/-- Claim C4: the effective window size is `max(days, 1)`; a stored day
key contributes to the aggregate iff it parses and the parsed date is
`≥ now.date - (max(days,1) - 1)`; malformed day keys are skipped (the
result over a store with malformed keys dropped is identical, and the
query is total). -/
theorem C4_window_membership (st : Store) (g days now : Int) :
    (∀ k : DayKey, day_within_window k (now - (max days 1 - 1)) = true
        ↔ ∃ d, parseDay k = some d ∧ now - (max days 1 - 1) ≤ d)
    ∧ get_server_windows st g days now = get_server_windows st g (max days 1) now
    ∧ get_server_windows st g days now = get_server_windows st.dropMalformed g days now := by
  refine ⟨?_, ?_, ?_⟩
  · intro k
    cases k <;> simp [day_within_window, parseDay]
  · simp only [get_server_windows]
    rw [max_eq_left (le_max_right days 1)]
  · simp only [get_server_windows, Store.dropMalformed]
    rw [lookup_map_snd]
    cases hl : lookupAssoc st.servers g with
    | none => rfl
    | some doc =>
      simp only [Option.map_some]
      show (let res := serverWindowLoop doc.daily_stats _ 0 0 []
            (res.1, res.2.1, res.2.2.length))
          = (let res := serverWindowLoop doc.dropMalformed.daily_stats _ 0 0 []
            (res.1, res.2.1, res.2.2.length))
      rw [serverWindowLoop_spec, serverWindowLoop_spec]
      rw [show doc.dropMalformed.daily_stats
          = doc.daily_stats.filter (fun p => (parseDay p.1).isSome) from rfl]
      rw [filter_dw_dropMalformed]

/-- Spec-side window predicate for a claim about an exact day range:
the key parses and the date lies in `[lo, hi]`. -/
def inWindowSpec (k : DayKey) (lo hi : Int) : Bool :=
  match parseDay k with
  | some d => decide (lo ≤ d ∧ d ≤ hi)
  | none => false

theorem length_unionInto_nil (xs : List Int) (h : xs.Nodup) :
    (unionInto [] xs).length = xs.length := by
  rw [← List.toFinset_card_of_nodup (nodup_unionInto [] xs List.nodup_nil),
    toFinset_unionInto]
  simp [List.toFinset_card_of_nodup h]

theorem length_unionActive_nil (l : List (DayKey × DayServerStats)) :
    (unionActive [] l).length = (activeFinset l).card := by
  rw [← List.toFinset_card_of_nodup (nodup_unionActive [] l List.nodup_nil),
    toFinset_unionActive]
  simp

theorem filter_window_today (l : List (DayKey × DayServerStats)) (now : Int)
    (hkeys : ∀ p ∈ l, ∃ d, parseDay p.1 = some d ∧ d ≤ now)
    (hnodup : (l.map Prod.fst).Nodup) :
    l.filter (fun p => day_within_window p.1 now)
      = (match lookupAssoc l (date_key now) with
        | some b => [(date_key now, b)]
        | none => ([] : List (DayKey × DayServerStats))) := by
  induction l with
  | nil => simp [lookupAssoc]
  | cons p t ih =>
    obtain ⟨k, s⟩ := p
    obtain ⟨d, hp, hd⟩ := hkeys (k, s) (List.mem_cons_self _ _)
    have hkeys' : ∀ q ∈ t, ∃ d, parseDay q.1 = some d ∧ d ≤ now :=
      fun q hq => hkeys q (List.mem_cons_of_mem _ hq)
    rw [List.map_cons] at hnodup
    have hknot : k ∉ t.map Prod.fst := (List.nodup_cons.mp hnodup).1
    have hnodup' : (t.map Prod.fst).Nodup := (List.nodup_cons.mp hnodup).2
    cases k with
    | malformed tag => simp [parseDay] at hp
    | valid d' =>
      obtain rfl : d = d' := by simpa [parseDay] using hp.symm
      by_cases hnow : d = now
      · subst hnow
        have hf : ((DayKey.valid d, s) :: t).filter (fun p => day_within_window p.1 d)
            = (DayKey.valid d, s) :: t.filter (fun p => day_within_window p.1 d) := by
          simp [List.filter_cons, day_within_window, parseDay]
        rw [hf]
        have htail : t.filter (fun p => day_within_window p.1 d) = [] := by
          rw [List.filter_eq_nil_iff]
          intro q hq
          obtain ⟨dq, hpq, hdq⟩ := hkeys' q hq
          cases hk : q.1 with
          | malformed tag => simp [day_within_window, hk, parseDay]
          | valid dq' =>
            rw [hk] at hpq
            obtain rfl : dq = dq' := by simpa [parseDay] using hpq.symm
            have hne : dq ≠ d := by
              intro he
              apply hknot
              have : q.1 ∈ t.map Prod.fst := List.mem_map_of_mem Prod.fst hq
              rw [hk, he] at this
              exact this
            simp [day_within_window, parseDay]
            omega
        rw [htail]
        rw [show lookupAssoc ((DayKey.valid d, s) :: t) (date_key d) = some s from by
          simp [lookupAssoc, date_key]]
        rfl
      · have hdw : day_within_window (DayKey.valid d) now = false := by
          simp [day_within_window, parseDay]
          omega
        have hf : ((DayKey.valid d, s) :: t).filter (fun p => day_within_window p.1 now)
            = t.filter (fun p => day_within_window p.1 now) := by
          simp [List.filter_cons, hdw]
        rw [hf, ih hkeys' hnodup']
        rw [show lookupAssoc ((DayKey.valid d, s) :: t) (date_key now)
            = lookupAssoc t (date_key now) from by
          rw [lookupAssoc, if_neg]
          intro he
          exact hnow (by simpa [date_key] using he.symm)]

/-- A store whose only server bucket is dated one day after the
reference time `now = 0`: the code's `days = 1` window includes it,
while the `dateKey(T)` bucket is absent. -/
def stC5 : Store :=
  { servers := [(1, { guild_id := 1, daily_stats := [(date_key 1, { messages := 5 })] })] }

/-- Counterexample to Claim C5 as stated: with a future-dated bucket,
`get_server_windows` at `days = 1` does not return the contents of the
single `dateKey(T)` day bucket (the code includes every bucket with
date `≥` the cutoff, with no upper bound at `dateKey(T)`). -/
theorem C5_counterexample :
    ¬(get_server_windows stC5 1 1 0
      = (((lookupAssoc ((lookupAssoc stC5.servers 1).getD {}).daily_stats
            (date_key 0)).getD {}).messages,
         ((lookupAssoc ((lookupAssoc stC5.servers 1).getD {}).daily_stats
            (date_key 0)).getD {}).reactions,
         ((lookupAssoc ((lookupAssoc stC5.servers 1).getD {}).daily_stats
            (date_key 0)).getD {}).active_users.length)) := by
  decide

/-- Claim C5 as amended: for a stored server document none of whose day
buckets is dated after `now` (and with the well-formedness Mongo
guarantees: distinct field names, `$addToSet`-deduplicated
`active_users`), `days = 1` returns exactly the contents of the single
`dateKey(T)` bucket, and `days = 7` returns the sums and the
active-user union over exactly the buckets dated within the 7 calendar
days ending at `dateKey(T)` inclusive. -/
theorem C5_windows_exact (st : Store) (g now : Int) (doc : ServerDoc)
    (hdoc : lookupAssoc st.servers g = some doc)
    (hkeys : ∀ p ∈ doc.daily_stats, ∃ d, parseDay p.1 = some d ∧ d ≤ now)
    (hnodup : (doc.daily_stats.map Prod.fst).Nodup)
    (hact : ∀ p ∈ doc.daily_stats, p.2.active_users.Nodup) :
    get_server_windows st g 1 now
      = (((lookupAssoc doc.daily_stats (date_key now)).getD {}).messages,
         ((lookupAssoc doc.daily_stats (date_key now)).getD {}).reactions,
         ((lookupAssoc doc.daily_stats (date_key now)).getD {}).active_users.length)
    ∧ get_server_windows st g 7 now
      = (((doc.daily_stats.filter (fun p => inWindowSpec p.1 (now - 6) now)).map
            (fun p => p.2.messages)).sum,
         ((doc.daily_stats.filter (fun p => inWindowSpec p.1 (now - 6) now)).map
            (fun p => p.2.reactions)).sum,
         (activeFinset (doc.daily_stats.filter
            (fun p => inWindowSpec p.1 (now - 6) now))).card) := by
  constructor
  · simp only [get_server_windows, hdoc]
    rw [show now - (max (1 : Int) 1 - 1) = now from by simp]
    rw [serverWindowLoop_spec]
    rw [filter_window_today doc.daily_stats now hkeys hnodup]
    cases hb : lookupAssoc doc.daily_stats (date_key now) with
    | none => simp [unionActive]
    | some b =>
      have hbn : b.active_users.Nodup := hact (date_key now, b) (lookupAssoc_mem hb)
      simp [unionActive, length_unionInto_nil b.active_users hbn]
  · simp only [get_server_windows, hdoc]
    rw [show now - (max (7 : Int) 1 - 1) = now - 6 from by norm_num]
    rw [serverWindowLoop_spec]
    have hfe : doc.daily_stats.filter (fun p => day_within_window p.1 (now - 6))
        = doc.daily_stats.filter (fun p => inWindowSpec p.1 (now - 6) now) := by
      refine List.filter_congr ?_
      intro p hp
      obtain ⟨d, hpd, hdle⟩ := hkeys p hp
      cases hk : p.1 with
      | malformed tag => simp [day_within_window, inWindowSpec, parseDay]
      | valid d' =>
        rw [hk] at hpd
        obtain rfl : d = d' := by simpa [parseDay] using hpd.symm
        simp only [day_within_window, inWindowSpec, parseDay]
        rw [decide_eq_decide]
        omega
    rw [hfe]
    simp [length_unionActive_nil]

/-- A sample well-formed server document dated at the reference day. -/
def sdocC5w : ServerDoc :=
  { guild_id := 1,
    daily_stats := [(date_key 0, { messages := 2, reactions := 1, active_users := [4] })] }

/-- A sample store holding `sdocC5w`. -/
def stC5w : Store := { servers := [(1, sdocC5w)] }

/-- Witness for the amended C5 at a concrete store. -/
theorem C5_windows_exact_witness :
    get_server_windows stC5w 1 1 0
      = (((lookupAssoc sdocC5w.daily_stats (date_key 0)).getD {}).messages,
         ((lookupAssoc sdocC5w.daily_stats (date_key 0)).getD {}).reactions,
         ((lookupAssoc sdocC5w.daily_stats (date_key 0)).getD {}).active_users.length) :=
  (C5_windows_exact stC5w 1 0 sdocC5w rfl
    (by
      intro p hp
      simp [sdocC5w] at hp
      subst hp
      exact ⟨0, rfl, le_refl 0⟩)
    (by decide) (by decide)).1

theorem topUsersLoop_mem (docs : List UserDoc) (g : Int) (cutoff : Int)
    (acc : List (Int × Int)) {p : Int × Int} (hp : p ∈ topUsersLoop docs g cutoff acc) :
    p ∈ acc ∨ 0 < p.2 := by
  induction docs generalizing acc with
  | nil => exact Or.inl hp
  | cons doc t ih =>
    simp only [topUsersLoop] at hp
    by_cases hg : doc.guild_id = g
    · rw [if_pos hg] at hp
      by_cases htot : userWindowMessages doc.daily_stats cutoff 0 > 0
      · rw [if_pos htot] at hp
        rcases ih _ hp with h | h
        · rcases List.mem_append.mp h with h2 | h2
          · exact Or.inl h2
          · right
            have : p = (doc.user_id, userWindowMessages doc.daily_stats cutoff 0) := by
              simpa using h2
            rw [this]
            exact htot
        · exact Or.inr h
      · rw [if_neg htot] at hp
        exact ih _ hp
    · rw [if_neg hg] at hp
      exact ih _ hp

/-- Claim C7 as amended: `get_top_users_by_messages` returns only users
whose in-window message sum is strictly positive, sorted in
non-increasing order of that sum (the source's stable sort leaves tied
counts adjacent, so the order is not *strictly* descending under
ties), and returns at most `limit` entries. -/
theorem C7_top_users (st : Store) (g days : Int) (limit : Nat) (now : Int) :
    (∀ p ∈ get_top_users_by_messages st g days limit now, 0 < p.2)
    ∧ (get_top_users_by_messages st g days limit now).Pairwise (fun a b => b.2 ≤ a.2)
    ∧ (get_top_users_by_messages st g days limit now).length ≤ limit := by
  refine ⟨?_, ?_, ?_⟩
  · intro p hp
    simp only [get_top_users_by_messages] at hp
    have h1 := (List.take_sublist _ _).mem hp
    have h2 := (List.mergeSort_perm _ _).mem_iff.mp h1
    rcases topUsersLoop_mem _ _ _ _ h2 with h | h
    · simp at h
    · exact h
  · simp only [get_top_users_by_messages]
    have hs := @List.sorted_mergeSort (Int × Int)
      (fun a b => decide (b.2 ≤ a.2))
      (fun a b c hab hbc => by
        simp only [decide_eq_true_iff] at hab hbc ⊢
        omega)
      (fun a b => by
        simp only [Bool.or_eq_true, decide_eq_true_iff]
        omega)
      (topUsersLoop (st.users.map Prod.snd) g (now - (max days 1 - 1)) [])
    have hs2 := hs.imp (fun h => of_decide_eq_true h)
    exact List.Pairwise.sublist (List.take_sublist _ _) hs2
  · simp only [get_top_users_by_messages]
    rw [List.length_take]
    exact min_le_left _ _

/-- A store with two users of the same guild, one message each on the
reference day: their in-window counts tie. -/
def stC7 : Store :=
  { users := [((1, 10), { guild_id := 1, user_id := 10,
                          daily_stats := [(date_key 0, { messages := 1 })] }),
              ((1, 11), { guild_id := 1, user_id := 11,
                          daily_stats := [(date_key 0, { messages := 1 })] })] }

/-- Counterexample to Claim C7 as stated: with two tied users the
returned list cannot be *strictly* descending by count. -/
theorem C7_counterexample :
    ¬((∀ p ∈ get_top_users_by_messages stC7 1 1 5 0, 0 < p.2)
      ∧ (get_top_users_by_messages stC7 1 1 5 0).Pairwise (fun a b => b.2 < a.2)
      ∧ (get_top_users_by_messages stC7 1 1 5 0).length ≤ 5) := by
  rintro ⟨h1, h2, h3⟩
  have htop : topUsersLoop (stC7.users.map Prod.snd) 1 (0 - (max (1 : Int) 1 - 1)) []
      = [(10, 1), (11, 1)] := by decide
  have hlen : (List.mergeSort [((10 : Int), (1 : Int)), (11, 1)]
      (fun a b => decide (b.2 ≤ a.2))).length = 2 :=
    (List.mergeSort_perm _ _).length_eq
  have hperm : List.Perm (get_top_users_by_messages stC7 1 1 5 0) [(10, 1), (11, 1)] := by
    simp only [get_top_users_by_messages]
    rw [htop]
    rw [List.take_of_length_le (by rw [hlen]; norm_num)]
    exact List.mergeSort_perm _ _
  have hlen2 : (get_top_users_by_messages stC7 1 1 5 0).length = 2 := hperm.length_eq
  have hmem : ∀ p ∈ get_top_users_by_messages stC7 1 1 5 0, p.2 = 1 := by
    intro p hp
    have h4 := hperm.mem_iff.mp hp
    simp at h4
    rcases h4 with h4 | h4 <;> simp [h4]
  rcases hL : get_top_users_by_messages stC7 1 1 5 0 with _ | ⟨a, L1⟩
  · rw [hL] at hlen2
    simp at hlen2
  rcases hL1 : L1 with _ | ⟨b, L2⟩
  · rw [hL, hL1] at hlen2
    simp at hlen2
  rw [hL, hL1] at h2 hmem
  have ha := hmem a (by simp)
  have hb := hmem b (by simp)
  have hab := (List.pairwise_cons.mp h2).1 b (by simp)
  omega

/-- An accepted message event: non-bot author, guild present. -/
def mC9 : MsgEvent :=
  { guild := some 1, author_id := 2, author_bot := false, message_id := 5, ts := 0 }

/-- Counterexample to Claim C9 as stated: handling an accepted message
also mutates the in-process `user_counts` tally (`_increment_user_count`),
so the durable documents and the recency cache are not the only state
changed. -/
theorem C9_counterexample :
    ¬((on_message none {} mC9).user_counts = ({} : CollectorState).user_counts) := by
  decide

/-- Claim C9 as amended: handling an accepted message modifies the user
document for (guild, author), the server document for the guild, the
recency-cache entry for the message id — and additionally increments
the in-process `user_counts` tally for the author (used only for the
`user_counts.log` line); no other user documents, server documents or
tally entries change. -/
theorem C9_message_frame (cfg : Option Int) (cs : CollectorState) (m : MsgEvent) (gid : Int)
    (hg : m.guild = some gid) (hb : m.author_bot = false)
    (hf : guildFilterSkips cfg gid = false) :
    (on_message cfg cs m).store = record_message cs.store gid m.author_id m.ts
    ∧ (on_message cfg cs m).cache = cs.cache.put m.message_id m.author_id
    ∧ (on_message cfg cs m).user_counts = counterInc cs.user_counts m.author_id
    ∧ (∀ k : Int × Int, k ≠ (gid, m.author_id) →
        lookupAssoc (on_message cfg cs m).store.users k = lookupAssoc cs.store.users k)
    ∧ (∀ k : Int, k ≠ gid →
        lookupAssoc (on_message cfg cs m).store.servers k = lookupAssoc cs.store.servers k)
    ∧ (∀ u : Int, u ≠ m.author_id →
        lookupAssoc (on_message cfg cs m).user_counts u = lookupAssoc cs.user_counts u) := by
  have hred : on_message cfg cs m
      = { store := record_message cs.store gid m.author_id m.ts,
          cache := cs.cache.put m.message_id m.author_id,
          user_counts := counterInc cs.user_counts m.author_id } := by
    simp only [on_message, hg, hb, hf]
    rfl
  refine ⟨by rw [hred], by rw [hred], by rw [hred], ?_, ?_, ?_⟩
  · intro k hk
    rw [hred]
    simp only [record_message]
    exact lookup_updateAssoc_ne _ _ _ hk
  · intro k hk
    rw [hred]
    simp only [record_message]
    exact lookup_updateAssoc_ne _ _ _ hk
  · intro u hu
    rw [hred]
    simp only [counterInc]
    exact lookup_updateAssoc_ne _ _ _ hu

/-- Witness for the amended C9 at a concrete accepted event. -/
theorem C9_message_frame_witness :
    (on_message none {} mC9).user_counts
      = counterInc ({} : CollectorState).user_counts mC9.author_id :=
  (C9_message_frame none {} mC9 1 rfl rfl rfl).2.2.1
